import Mathlib

/-!
# QSimpleTickerGraph: buffering, configuration setters and paint geometry

A shallow embedding of `qsimpletickergraph.cpp`.

Modelling conventions.
* C++ `double` values (`qreal`, samples, range bounds, grid pitch) are exact
  rationals `ℚ`; rounding, infinities and NaN are outside the model.
* C++ `int` values (`width()`, `height()`, `mPointWidth`, `mDataCount`) are
  integers `Int`. Every `int` operation of `appendPoint`, of the data-line
  loop and of the first vertical grid position is reduced to the 32-bit
  two's-complement range by `wrapInt32`, which is what the compiled code
  computes when an operation overflows. The counters of the two grid loops are
  exact: every value at which a line is drawn is below the loop limit.
* The conversion `double -> int` is truncation toward zero and the C++
  operator `%` on `int` is the truncating remainder `Int.tmod`.
* The Qt value types `QBrush`, `QPen`, `QColor` and `QFont` are declared by the
  toolkit, not by this repository: they are type parameters carrying a
  decidable equality, which stands for their `operator!=`.
* `QWidget::update()` is recorded by a counter of redraw requests.
-/

namespace QSimpleTickerGraph

/-- The widget state: the inherited `QWidget` geometry read through `width()`
and `height()`, the private members of `class QSimpleTickerGraph` in
declaration order, and the number of `update()` calls issued so far. -/
structure Graph (Brush Pen Color Font : Type) where
  width : Int
  height : Int
  mData : List ℚ
  mPointWidth : Int
  mDataCount : Int
  mUnits : String
  mReferencePoints : List ℚ
  mMin : ℚ
  mMax : ℚ
  mBackgroundBrush : Brush
  mGridPen : Pen
  mGridPitch : ℚ
  mDataLinePen : Pen
  mAxisColor : Color
  mAxisFont : Font
  mLabelColor : Color
  mLabelFont : Font
  updateCalls : Nat

variable {Brush Pen Color Font : Type}

/-- The call `update()`: one more redraw request, nothing else changes. -/
def update (s : Graph Brush Pen Color Font) : Graph Brush Pen Color Font :=
  { s with updateCalls := s.updateCalls + 1 }

/-- The statement `if (!mData.isEmpty()) update();` shared by several setters. -/
def updateIfData (s : Graph Brush Pen Color Font) : Graph Brush Pen Color Font :=
  if s.mData.isEmpty then s else update s

/-- The constructor: point width 1, no data, range [0, 100], grid pitch 10.
The toolkit values (black brush, the two green pens, white, the two Arial
fonts) and the geometry given by the layout are arguments. -/
def construct (w h : Int) (blackBrush : Brush) (gridPen dataLinePen : Pen)
    (white : Color) (axisFont labelFont : Font) : Graph Brush Pen Color Font :=
  { width := w
    height := h
    mData := []
    mPointWidth := 1
    mDataCount := 0
    mUnits := ""
    mReferencePoints := []
    mMin := 0
    mMax := 100
    mBackgroundBrush := blackBrush
    mGridPen := gridPen
    mGridPitch := 10
    mDataLinePen := dataLinePen
    mAxisColor := white
    mAxisFont := axisFont
    mLabelColor := white
    mLabelFont := labelFont
    updateCalls := 0 }

/-! ## Accessors and setters -/

/-- The accessor `units()`. -/
def units (s : Graph Brush Pen Color Font) : String := s.mUnits

/-- The setter `setUnits(units)`. -/
def setUnits (s : Graph Brush Pen Color Font) (u : String) : Graph Brush Pen Color Font :=
  if u ≠ s.mUnits then updateIfData { s with mUnits := u } else s

/-- The accessor `range()`: the pair `(mMin, mMax)`. -/
def range (s : Graph Brush Pen Color Font) : ℚ × ℚ := (s.mMin, s.mMax)

/-- The setter `setRange(min, max)`: the guard is
`(min != mMin || max != mMax) && (mMax > mMin)`. -/
def setRange (s : Graph Brush Pen Color Font) (min max : ℚ) : Graph Brush Pen Color Font :=
  if (min ≠ s.mMin ∨ max ≠ s.mMax) ∧ s.mMax > s.mMin then
    updateIfData { s with mMin := min, mMax := max }
  else s

/-- The overload `setRange(const QPair<double, double>&)`. -/
def setRangePair (s : Graph Brush Pen Color Font) (r : ℚ × ℚ) : Graph Brush Pen Color Font :=
  setRange s r.1 r.2

/-- The accessor `pointWidth()`. -/
def pointWidth (s : Graph Brush Pen Color Font) : Int := s.mPointWidth

/-- The setter `setPointWidth(w)`. -/
def setPointWidth (s : Graph Brush Pen Color Font) (w : Int) : Graph Brush Pen Color Font :=
  if w ≠ s.mPointWidth then updateIfData { s with mPointWidth := w } else s

/-- The accessor `referencePoints()`. -/
def referencePoints (s : Graph Brush Pen Color Font) : List ℚ := s.mReferencePoints

/-- The setter `setReferencePoints(points)`. -/
def setReferencePoints (s : Graph Brush Pen Color Font) (points : List ℚ) :
    Graph Brush Pen Color Font :=
  if points ≠ s.mReferencePoints then update { s with mReferencePoints := points } else s

/-- The accessor `backgroundBrush()`. -/
def backgroundBrush (s : Graph Brush Pen Color Font) : Brush := s.mBackgroundBrush

/-- The setter `setBackgroundBrush(brush)`. -/
def setBackgroundBrush [DecidableEq Brush] (s : Graph Brush Pen Color Font) (brush : Brush) :
    Graph Brush Pen Color Font :=
  if brush ≠ s.mBackgroundBrush then update { s with mBackgroundBrush := brush } else s

/-- The accessor `gridPen()`. -/
def gridPen (s : Graph Brush Pen Color Font) : Pen := s.mGridPen

/-- The setter `setGridPen(pen)`. -/
def setGridPen [DecidableEq Pen] (s : Graph Brush Pen Color Font) (pen : Pen) :
    Graph Brush Pen Color Font :=
  if pen ≠ s.mGridPen then update { s with mGridPen := pen } else s

/-- The accessor `gridPitch()`. -/
def gridPitch (s : Graph Brush Pen Color Font) : ℚ := s.mGridPitch

/-- The setter `setGridPitch(pitch)`. -/
def setGridPitch (s : Graph Brush Pen Color Font) (pitch : ℚ) : Graph Brush Pen Color Font :=
  if pitch ≠ s.mGridPitch then update { s with mGridPitch := pitch } else s

/-- The accessor `dataLinePen()`. -/
def dataLinePen (s : Graph Brush Pen Color Font) : Pen := s.mDataLinePen

/-- The setter `setDataLinePen(pen)`. -/
def setDataLinePen [DecidableEq Pen] (s : Graph Brush Pen Color Font) (pen : Pen) :
    Graph Brush Pen Color Font :=
  if pen ≠ s.mDataLinePen then updateIfData { s with mDataLinePen := pen } else s

/-- The accessor `labelColor()`. -/
def labelColor (s : Graph Brush Pen Color Font) : Color := s.mLabelColor

/-- The setter `setLabelColor(color)`. -/
def setLabelColor [DecidableEq Color] (s : Graph Brush Pen Color Font) (color : Color) :
    Graph Brush Pen Color Font :=
  if color ≠ s.mLabelColor then update { s with mLabelColor := color } else s

/-- The accessor `labelFont()`. -/
def labelFont (s : Graph Brush Pen Color Font) : Font := s.mLabelFont

/-- The setter `setLabelFont(font)`. -/
def setLabelFont [DecidableEq Font] (s : Graph Brush Pen Color Font) (font : Font) :
    Graph Brush Pen Color Font :=
  if font ≠ s.mLabelFont then updateIfData { s with mLabelFont := font } else s

/-- The accessor `axisColor()`. -/
def axisColor (s : Graph Brush Pen Color Font) : Color := s.mAxisColor

/-- The setter `setAxisColor(color)`. -/
def setAxisColor [DecidableEq Color] (s : Graph Brush Pen Color Font) (color : Color) :
    Graph Brush Pen Color Font :=
  if color ≠ s.mAxisColor then update { s with mAxisColor := color } else s

/-- The accessor `axisFont()`. -/
def axisFont (s : Graph Brush Pen Color Font) : Font := s.mAxisFont

/-- The setter `setAxisFont(font)`. -/
def setAxisFont [DecidableEq Font] (s : Graph Brush Pen Color Font) (font : Font) :
    Graph Brush Pen Color Font :=
  if font ≠ s.mAxisFont then update { s with mAxisFont := font } else s

/-! ## Data interface -/

/-- The value an `int` expression takes when its exact result is `x`: the
representative of `x` modulo 2^32 in the range -2^31 .. 2^31 - 1. -/
def wrapInt32 (x : Int) : Int := (x + 2147483648) % 4294967296 - 2147483648

/-- The call `mData.enqueue(point)`: append at the tail. -/
def enqueue (q : List ℚ) (point : ℚ) : List ℚ := q ++ [point]

/-- The call `mData.dequeue()`: drop the head. -/
def dequeue (q : List ℚ) : List ℚ := q.tail

/-- The method `appendPoint(point)`: enqueue, compute
`dataWidth = mPointWidth * (mData.size() - 1)`, dequeue once when
`dataWidth >= width() + mPointWidth`, count the point, request a redraw.
The product, the sum, `size() - 1` and `++ mDataCount` are `int` operations. -/
def appendPoint (s : Graph Brush Pen Color Font) (point : ℚ) : Graph Brush Pen Color Font :=
  let q := enqueue s.mData point
  let dataWidth : Int := wrapInt32 (s.mPointWidth * wrapInt32 ((q.length : Int) - 1))
  let q2 := if dataWidth ≥ wrapInt32 (s.width + s.mPointWidth) then dequeue q else q
  update { s with mData := q2, mDataCount := wrapInt32 (s.mDataCount + 1) }

/-- The method `clear()`: empty the queue, reset the counter, request a redraw. -/
def clear (s : Graph Brush Pen Color Font) : Graph Brush Pen Color Font :=
  update { s with mData := [], mDataCount := 0 }

/-- A run of `appendPoint` calls, oldest call first. -/
def appendPoints (s : Graph Brush Pen Color Font) (points : List ℚ) :
    Graph Brush Pen Color Font :=
  points.foldl appendPoint s

/-- The rendered-width invariant: `mPointWidth * (size - 1) < width + mPointWidth`. -/
def Fits (s : Graph Brush Pen Color Font) : Prop :=
  s.mPointWidth * ((s.mData.length : Int) - 1) < s.width + s.mPointWidth

instance (s : Graph Brush Pen Color Font) : Decidable (Fits s) := by
  unfold Fits; infer_instance

/-! ## The public mutators as a command language -/

/-- One call of a public mutator of the class. -/
inductive Call (Brush Pen Color Font : Type) where
  | setUnits (u : String)
  | setRange (min max : ℚ)
  | setRangePair (r : ℚ × ℚ)
  | setPointWidth (w : Int)
  | setReferencePoints (points : List ℚ)
  | setBackgroundBrush (brush : Brush)
  | setGridPen (pen : Pen)
  | setGridPitch (pitch : ℚ)
  | setDataLinePen (pen : Pen)
  | setAxisColor (color : Color)
  | setAxisFont (font : Font)
  | setLabelColor (color : Color)
  | setLabelFont (font : Font)
  | appendPoint (point : ℚ)
  | clear

/-- Execute one call. -/
def Call.run [DecidableEq Brush] [DecidableEq Pen] [DecidableEq Color] [DecidableEq Font]
    (s : Graph Brush Pen Color Font) : Call Brush Pen Color Font → Graph Brush Pen Color Font
  | .setUnits u => QSimpleTickerGraph.setUnits s u
  | .setRange a b => QSimpleTickerGraph.setRange s a b
  | .setRangePair r => QSimpleTickerGraph.setRangePair s r
  | .setPointWidth w => QSimpleTickerGraph.setPointWidth s w
  | .setReferencePoints ps => QSimpleTickerGraph.setReferencePoints s ps
  | .setBackgroundBrush b => QSimpleTickerGraph.setBackgroundBrush s b
  | .setGridPen p => QSimpleTickerGraph.setGridPen s p
  | .setGridPitch p => QSimpleTickerGraph.setGridPitch s p
  | .setDataLinePen p => QSimpleTickerGraph.setDataLinePen s p
  | .setAxisColor c => QSimpleTickerGraph.setAxisColor s c
  | .setAxisFont f => QSimpleTickerGraph.setAxisFont s f
  | .setLabelColor c => QSimpleTickerGraph.setLabelColor s c
  | .setLabelFont f => QSimpleTickerGraph.setLabelFont s f
  | .appendPoint p => QSimpleTickerGraph.appendPoint s p
  | .clear => QSimpleTickerGraph.clear s

/-- Execute a sequence of calls, first call first. -/
def runCalls [DecidableEq Brush] [DecidableEq Pen] [DecidableEq Color] [DecidableEq Font]
    (s : Graph Brush Pen Color Font) (calls : List (Call Brush Pen Color Font)) :
    Graph Brush Pen Color Font :=
  calls.foldl Call.run s

/-! ## Paint geometry -/

/-- The conversion of a `double` to `int`: truncation toward zero. -/
def truncToInt (q : ℚ) : Int := Int.tdiv q.num (q.den : Int)

/-- The local `scale` of `paintEvent`:
`(mMax > mMin) ? (height() / (mMax - mMin)) : 1.0`. -/
def scale (s : Graph Brush Pen Color Font) : ℚ :=
  if s.mMax > s.mMin then (s.height : ℚ) / (s.mMax - s.mMin) else 1

/-- The expression `height() - scale * (v - mMin)` which `paintEvent` uses for
the first reference point, for both ends of every data segment and for the
reference labels. -/
def valueToY (s : Graph Brush Pen Color Font) (v : ℚ) : ℚ :=
  (s.height : ℚ) - scale s * (v - s.mMin)

/-- The local `gridOffset` of `paintEvent`: 0 without reference points,
otherwise the truncated pixel row of the first reference point. -/
def gridOffset (s : Graph Brush Pen Color Font) : Int :=
  match s.mReferencePoints with
  | [] => 0
  | first :: _ => truncToInt (valueToY s first)

/-- The local `pitchInPixels` of `paintEvent`: `scale * mGridPitch` as `int`. -/
def pitchInPixels (s : Graph Brush Pen Color Font) : Int :=
  truncToInt (scale s * s.mGridPitch)

/-- The loop `for (int v = start; v < limit; v += step)`, collecting the
values of `v` at which the body runs; `fuel` bounds the number of rounds. -/
def forLoop (limit step : Int) : Nat → Int → List Int
  | 0, _ => []
  | fuel + 1, v => if v < limit then v :: forLoop limit step fuel (v + step) else []

/-- The x positions of the vertical grid lines: nothing unless
`pitchInPixels > 0`, else from `-(mDataCount * mPointWidth) % pitchInPixels`
in steps of the pitch while `x < width()`. The fuel `width() - start` suffices
because the step is at least one pixel. -/
def verticalGridXs (s : Graph Brush Pen Color Font) : List Int :=
  if pitchInPixels s > 0 then
    let start :=
      Int.tmod (wrapInt32 (-(wrapInt32 (s.mDataCount * s.mPointWidth)))) (pitchInPixels s)
    forLoop s.width (pitchInPixels s) (s.width - start).toNat start
  else []

/-- The y positions of the horizontal grid lines: nothing unless
`pitchInPixels > 0`, else from `-pitchInPixels + gridOffset % pitchInPixels`
in steps of the pitch while `y < height()`. The fuel `height() - start`
suffices because the step is at least one pixel. -/
def horizontalGridYs (s : Graph Brush Pen Color Font) : List Int :=
  if pitchInPixels s > 0 then
    let start := -(pitchInPixels s) + Int.tmod (gridOffset s) (pitchInPixels s)
    forLoop s.height (pitchInPixels s) (s.height - start).toNat start
  else []

/-- A drawn line segment: start point and end point, each as (x, y). -/
abbrev Segment := (ℚ × ℚ) × (ℚ × ℚ)

/-- The grid lines drawn by `paintEvent`: for every x a line from `(x, 0)` to
`(x, height())`, then for every y a line from `(0, y)` to `(width(), y)`. -/
def gridLines (s : Graph Brush Pen Color Font) : List Segment :=
  (verticalGridXs s).map (fun (x : Int) => (((x : ℚ), 0), ((x : ℚ), (s.height : ℚ)))) ++
  (horizontalGridYs s).map (fun (y : Int) => ((0, (y : ℚ)), ((s.width : ℚ), (y : ℚ))))

/-- The data lines drawn by `paintEvent`: with
`dataWidth = mPointWidth * (mData.size() - 1)`, for `i = 1 .. size - 1` the
segment from `(x - mPointWidth, prev)` to `(x, val)` where
`x = width() - dataWidth + mPointWidth * i`, `prev` and `val` being the pixel
rows of samples `i - 1` and `i`. Both `dataWidth` and `x` are computed in
`int` and `x` is then converted to `qreal`; `x - mPointWidth` is a `qreal`
subtraction. -/
def dataLines (s : Graph Brush Pen Color Font) : List Segment :=
  let dataWidth : Int := wrapInt32 (s.mPointWidth * wrapInt32 ((s.mData.length : Int) - 1))
  (List.range' 1 (s.mData.length - 1)).map (fun (i : Nat) =>
    let prev := valueToY s (s.mData.getD (i - 1) 0)
    let val := valueToY s (s.mData.getD i 0)
    let x : ℚ :=
      ((wrapInt32 (wrapInt32 (s.width - dataWidth) + wrapInt32 (s.mPointWidth * (i : Int))) :
        Int) : ℚ)
    ((x - (s.mPointWidth : ℚ), prev), (x, val)))

/-- The line segments of one `paintEvent`, in drawing order: grid, then data.
The background fill and the text labels are not part of this list. -/
def paintEventLines (s : Graph Brush Pen Color Font) : List Segment :=
  gridLines s ++ dataLines s

/-! ## Reference algorithm of the specification -/

/-- The eviction loop in the specification's words: dequeue from the front
while the rendered width of all points, `pointWidth * (size - 1)`, exceeds
the widget width plus one point width. -/
def specEvictWhileExceeds (pw w : Int) : List ℚ → List ℚ
  | [] => []
  | x :: xs =>
    if pw * (((x :: xs).length : Int) - 1) > w + pw then specEvictWhileExceeds pw w xs
    else x :: xs

/-- The specified append: enqueue, then evict while the width is exceeded. -/
def specAppendPoint (pw w : Int) (buffer : List ℚ) (point : ℚ) : List ℚ :=
  specEvictWhileExceeds pw w (buffer ++ [point])

/-- The eviction loop with the comparison of the code: dequeue from the front
while `pointWidth * (size - 1)` is at least the widget width plus one point
width. -/
def specEvictWhileReaches (pw w : Int) : List ℚ → List ℚ
  | [] => []
  | x :: xs =>
    if pw * (((x :: xs).length : Int) - 1) ≥ w + pw then specEvictWhileReaches pw w xs
    else x :: xs

/-- The append with the comparison of the code: enqueue, then evict while the
width is reached. -/
def specAppendPointReaches (pw w : Int) (buffer : List ℚ) (point : ℚ) : List ℚ :=
  specEvictWhileReaches pw w (buffer ++ [point])

/-- A concrete widget for evaluation: toolkit values are numbered. -/
def demo (w h : Int) : Graph Nat Nat Nat Nat := construct w h 0 1 2 3 4 5

/-- A widget of width 10 holding five samples whose point width is then set
to 2147483647, the largest `int`. -/
def wideDemo : Graph Nat Nat Nat Nat :=
  setPointWidth (appendPoints (demo 10 100) [1, 2, 3, 4, 5]) 2147483647

/-! ## Helper lemmas: frame conditions, the buffer invariant, the loops -/

section Lemmas

theorem update_range (s : Graph Brush Pen Color Font) : range (update s) = range s := rfl

theorem updateIfData_range (s : Graph Brush Pen Color Font) :
    range (updateIfData s) = range s := by
  unfold updateIfData
  split <;> rfl

theorem appendPoint_width (s : Graph Brush Pen Color Font) (p : ℚ) :
    (appendPoint s p).width = s.width := rfl

theorem appendPoint_pointWidth (s : Graph Brush Pen Color Font) (p : ℚ) :
    (appendPoint s p).mPointWidth = s.mPointWidth := rfl

theorem wrapInt32_eq_self (x : Int) (h1 : -2147483648 ≤ x) (h2 : x ≤ 2147483647) :
    wrapInt32 x = x := by
  unfold wrapInt32; omega

theorem appendPoint_data (s : Graph Brush Pen Color Font) (p : ℚ) :
    (appendPoint s p).mData =
      if wrapInt32 (s.mPointWidth * wrapInt32 (((s.mData ++ [p]).length : Int) - 1))
          ≥ wrapInt32 (s.width + s.mPointWidth)
      then (s.mData ++ [p]).tail else s.mData ++ [p] := rfl

/-- Without overflow the test of `appendPoint` is the exact comparison: on a
buffer within the rendered-width invariant, `width + 2 * pointWidth` in the
`int` range keeps `size() - 1`, the product and the sum in range. -/
theorem appendPoint_data_exact (s : Graph Brush Pen Color Font) (p : ℚ)
    (hW : 0 ≤ s.width) (hP : 1 ≤ s.mPointWidth)
    (hOv : s.width + 2 * s.mPointWidth ≤ 2147483647) (hfit : Fits s) :
    (appendPoint s p).mData =
      if s.mPointWidth * (((s.mData ++ [p]).length : Int) - 1) ≥ s.width + s.mPointWidth
      then (s.mData ++ [p]).tail else s.mData ++ [p] := by
  unfold Fits at hfit
  have hlen : (((s.mData ++ [p]).length : Int) - 1) = (s.mData.length : Int) := by simp
  have hn0 : (0 : Int) ≤ (s.mData.length : Int) := Int.ofNat_nonneg _
  have hexp : s.mPointWidth * ((s.mData.length : Int) - 1)
      = s.mPointWidth * (s.mData.length : Int) - s.mPointWidth := by ring
  have hPn : s.mPointWidth * (s.mData.length : Int) < s.width + 2 * s.mPointWidth := by
    linarith
  have hPn0 : (s.mData.length : Int) ≤ s.mPointWidth * (s.mData.length : Int) := by
    nlinarith
  rw [appendPoint_data, hlen, wrapInt32_eq_self (s.mData.length : Int) (by linarith)
    (by linarith), wrapInt32_eq_self (s.mPointWidth * (s.mData.length : Int)) (by linarith)
    (by linarith), wrapInt32_eq_self (s.width + s.mPointWidth) (by linarith) (by linarith)]

theorem appendPoints_width (s : Graph Brush Pen Color Font) (ps : List ℚ) :
    (appendPoints s ps).width = s.width := by
  induction ps generalizing s with
  | nil => rfl
  | cons p ps ih =>
    show (appendPoints (appendPoint s p) ps).width = s.width
    rw [ih, appendPoint_width]

theorem appendPoints_pointWidth (s : Graph Brush Pen Color Font) (ps : List ℚ) :
    (appendPoints s ps).mPointWidth = s.mPointWidth := by
  induction ps generalizing s with
  | nil => rfl
  | cons p ps ih =>
    show (appendPoints (appendPoint s p) ps).mPointWidth = s.mPointWidth
    rw [ih, appendPoint_pointWidth]

theorem appendPoint_fits (s : Graph Brush Pen Color Font) (p : ℚ)
    (hW : 0 ≤ s.width) (hP : 1 ≤ s.mPointWidth)
    (hOv : s.width + 2 * s.mPointWidth ≤ 2147483647) (h : Fits s) :
    Fits (appendPoint s p) := by
  have hd := appendPoint_data_exact s p hW hP hOv h
  unfold Fits at *
  rw [hd, appendPoint_width, appendPoint_pointWidth]
  split
  · simpa using h
  · rename_i hlt
    simpa using hlt

theorem appendPoints_fits (s : Graph Brush Pen Color Font) (ps : List ℚ)
    (hW : 0 ≤ s.width) (hP : 1 ≤ s.mPointWidth)
    (hOv : s.width + 2 * s.mPointWidth ≤ 2147483647) (h : Fits s) :
    Fits (appendPoints s ps) := by
  induction ps generalizing s with
  | nil => exact h
  | cons p ps ih =>
    exact ih (appendPoint s p) (by rw [appendPoint_width]; exact hW)
      (by rw [appendPoint_pointWidth]; exact hP)
      (by rw [appendPoint_width, appendPoint_pointWidth]; exact hOv)
      (appendPoint_fits s p hW hP hOv h)

/-- With a stored range that is not increasing, no public mutator changes the range. -/
theorem run_range_of_degenerate [DecidableEq Brush] [DecidableEq Pen] [DecidableEq Color]
    [DecidableEq Font] (s : Graph Brush Pen Color Font)
    (c : Call Brush Pen Color Font) (h : s.mMax ≤ s.mMin) : range (Call.run s c) = range s := by
  have hn : ¬ (s.mMax > s.mMin) := not_lt.mpr h
  cases c <;>
    simp only [Call.run, setUnits, setRangePair, setRange, setPointWidth, setReferencePoints,
      setBackgroundBrush, setGridPen, setGridPitch, setDataLinePen, setAxisColor, setAxisFont,
      setLabelColor, setLabelFont, appendPoint, clear, hn, and_false, if_false] <;>
    first
      | rfl
      | (split <;> first | rfl | (rw [updateIfData_range]; rfl))

theorem runCalls_range_of_degenerate [DecidableEq Brush] [DecidableEq Pen] [DecidableEq Color]
    [DecidableEq Font] (s : Graph Brush Pen Color Font)
    (calls : List (Call Brush Pen Color Font)) (h : s.mMax ≤ s.mMin) :
    range (runCalls s calls) = range s := by
  induction calls generalizing s with
  | nil => rfl
  | cons c cs ih =>
    have h1 : range (Call.run s c) = range s := run_range_of_degenerate s c h
    have h2 : (Call.run s c).mMax ≤ (Call.run s c).mMin := by
      have ha : (Call.run s c).mMin = s.mMin := congrArg Prod.fst h1
      have hb : (Call.run s c).mMax = s.mMax := congrArg Prod.snd h1
      rw [ha, hb]; exact h
    show range (runCalls (Call.run s c) cs) = range s
    rw [ih (Call.run s c) h2, h1]

theorem fits_of_empty (s : Graph Brush Pen Color Font) (hE : s.mData = [])
    (hW : 0 ≤ s.width) (hP : 1 ≤ s.mPointWidth) : Fits s := by
  unfold Fits
  rw [hE]
  simp only [List.length_nil, Nat.cast_zero]
  linarith

theorem specEvictWhileReaches_of_fits (pw w : Int) (l : List ℚ)
    (h : pw * ((l.length : Int) - 1) < w + pw) : specEvictWhileReaches pw w l = l := by
  cases l with
  | nil => rfl
  | cons x xs =>
    unfold specEvictWhileReaches
    rw [if_neg (not_le.mpr h)]

/-- Extra fuel does not change the loop once the fuel covers `limit - v`:
the loop of the model ends by its condition, as the C++ loop does. -/
theorem forLoop_fuel_stable (limit step : Int) (hs : 1 ≤ step) (fuel : Nat) (v : Int)
    (hf : (limit - v).toNat ≤ fuel) :
    forLoop limit step (fuel + 1) v = forLoop limit step fuel v := by
  induction fuel generalizing v with
  | zero =>
    have hv : ¬ v < limit := by omega
    simp [forLoop, hv]
  | succ n ih =>
    rw [forLoop]
    by_cases hv : v < limit
    · rw [if_pos hv]
      have hf2 : (limit - (v + step)).toNat ≤ n := by omega
      rw [ih (v + step) hf2]
      conv_rhs => rw [forLoop, if_pos hv]
    · rw [if_neg hv]
      conv_rhs => rw [forLoop, if_neg hv]

/-- The k-th value of the loop is visited when it is below the limit. -/
theorem forLoop_mem (limit step : Int) (hs : 0 ≤ step) (k fuel : Nat) (v : Int)
    (hk : k < fuel) (hlt : v + k * step < limit) :
    v + k * step ∈ forLoop limit step fuel v := by
  induction k generalizing v fuel with
  | zero =>
    obtain ⟨f, rfl⟩ : ∃ f, fuel = f + 1 := ⟨fuel - 1, by omega⟩
    have hv : v < limit := by simpa using hlt
    simp [forLoop, hv]
  | succ k ih =>
    obtain ⟨f, rfl⟩ : ∃ f, fuel = f + 1 := ⟨fuel - 1, by omega⟩
    have hks : (0 : Int) ≤ (k : Int) * step := mul_nonneg (Int.ofNat_nonneg k) hs
    have hexp : v + ((k + 1 : Nat) : Int) * step = v + step + (k : Int) * step := by
      push_cast; ring
    have hv : v < limit := by
      rw [hexp] at hlt; linarith
    rw [forLoop, if_pos hv, hexp]
    refine List.mem_cons_of_mem _ (ih f (v + step) (by omega) ?_)
    rw [← hexp]; exact hlt

theorem dataLines_getElem? (s : Graph Brush Pen Color Font) (k : Nat)
    (hk : k + 1 < s.mData.length) (hP : 1 ≤ s.mPointWidth)
    (hW0 : 0 ≤ s.width) (hW : s.width ≤ 2147483647)
    (hOv : s.mPointWidth * ((s.mData.length : Int) - 1) ≤ 2147483647) :
    (dataLines s)[k]? = some
      (((s.width : ℚ) - (s.mPointWidth : ℚ) * ((s.mData.length : ℚ) - 1 - (k : ℚ)),
          valueToY s (s.mData.getD k 0)),
       ((s.width : ℚ) - (s.mPointWidth : ℚ) * ((s.mData.length : ℚ) - 1 - ((k : ℚ) + 1)),
          valueToY s (s.mData.getD (k + 1) 0))) := by
  have hk2 : k < s.mData.length - 1 := by omega
  have hP0 : (0 : Int) ≤ s.mPointWidth := by linarith
  have hn1 : (0 : Int) ≤ (s.mData.length : Int) - 1 := by omega
  have hle : (s.mData.length : Int) - 1 ≤ s.mPointWidth * ((s.mData.length : Int) - 1) := by
    nlinarith
  have hki : (k : Int) + 1 ≤ (s.mData.length : Int) - 1 := by omega
  have hPk0 : 0 ≤ s.mPointWidth * ((k : Int) + 1) := mul_nonneg hP0 (by omega)
  have hPk : s.mPointWidth * ((k : Int) + 1)
      ≤ s.mPointWidth * ((s.mData.length : Int) - 1) := mul_le_mul_of_nonneg_left hki hP0
  have hcast : ((k + 1 : Nat) : Int) = (k : Int) + 1 := by push_cast; ring
  have e1 : wrapInt32 ((s.mData.length : Int) - 1) = (s.mData.length : Int) - 1 :=
    wrapInt32_eq_self _ (by linarith) (by linarith)
  have e2 : wrapInt32 (s.mPointWidth * ((s.mData.length : Int) - 1))
      = s.mPointWidth * ((s.mData.length : Int) - 1) :=
    wrapInt32_eq_self _ (by linarith) (by linarith)
  have e3 : wrapInt32 (s.width - s.mPointWidth * ((s.mData.length : Int) - 1))
      = s.width - s.mPointWidth * ((s.mData.length : Int) - 1) :=
    wrapInt32_eq_self _ (by linarith) (by linarith)
  have e4 : wrapInt32 (s.mPointWidth * ((k : Int) + 1)) = s.mPointWidth * ((k : Int) + 1) :=
    wrapInt32_eq_self _ (by linarith) (by linarith)
  have e5 : wrapInt32 (s.width - s.mPointWidth * ((s.mData.length : Int) - 1)
      + s.mPointWidth * ((k : Int) + 1))
      = s.width - s.mPointWidth * ((s.mData.length : Int) - 1)
        + s.mPointWidth * ((k : Int) + 1) :=
    wrapInt32_eq_self _ (by linarith) (by linarith)
  unfold dataLines
  simp only [List.getElem?_map, List.getElem?_range' 1 1 hk2, Option.map_some', one_mul]
  have h1 : 1 + k - 1 = k := by omega
  have h2 : 1 + k = k + 1 := by omega
  rw [h1, h2, hcast, e1, e2, e3, e4, e5]
  congr 1
  refine Prod.ext (Prod.ext ?_ rfl) (Prod.ext ?_ rfl)
  · push_cast; ring
  · push_cast; ring

theorem dataLines_length (s : Graph Brush Pen Color Font) :
    (dataLines s).length = s.mData.length - 1 := by
  simp [dataLines]

theorem getD_of_getElem? (l : List ℚ) (k : Nat) (a : ℚ) (h : l[k]? = some a) :
    l.getD k 0 = a := by
  rw [List.getD_eq_getElem?_getD, h]; rfl

theorem lt_length_of_getElem? (l : List ℚ) (k : Nat) (a : ℚ) (h : l[k]? = some a) :
    k < l.length := by
  by_contra hc
  rw [List.getElem?_eq_none (not_lt.mp hc)] at h
  exact Option.noConfusion h

end Lemmas

/-! ## The buffer -/

/-- C1 as stated fails: with widget width 1 and point width 2 the capacity
`(W / P) + 1` is 1, yet two appended points leave a buffer of length 2. -/
theorem appendPoints_length_exceeds_quotient_capacity :
    (setPointWidth (demo 1 10) 2).mData = [] ∧
    (setPointWidth (demo 1 10) 2).width = 1 ∧
    (setPointWidth (demo 1 10) 2).mPointWidth = 2 ∧
    ¬ (((appendPoints (setPointWidth (demo 1 10) 2) [0, 0]).mData.length : Int) ≤
        (setPointWidth (demo 1 10) 2).width / (setPointWidth (demo 1 10) 2).mPointWidth + 1) := by
  decide

/-- C1 (amended): starting from an empty buffer, with widget width W >= 0 and
point width P >= 1 such that W + 2 * P <= 2147483647 (no `int` overflow in
appendPoint), after every finite sequence of appendPoint calls the buffer
length n satisfies `P * (n - 1) < W + P`, that is
`n <= ceil(W / P) + 1 = (W + P - 1) / P + 1`; hence `n <= (W / P) + 2` always
and `n <= (W / P) + 1` when P divides W. -/
theorem appendPoints_length_le_ceil_capacity (s : Graph Brush Pen Color Font)
    (points : List ℚ) (hE : s.mData = []) (hW : 0 ≤ s.width) (hP : 1 ≤ s.mPointWidth)
    (hOv : s.width + 2 * s.mPointWidth ≤ 2147483647) :
    s.mPointWidth * (((appendPoints s points).mData.length : Int) - 1)
        < s.width + s.mPointWidth ∧
    ((appendPoints s points).mData.length : Int)
        ≤ (s.width + s.mPointWidth - 1) / s.mPointWidth + 1 ∧
    ((appendPoints s points).mData.length : Int) ≤ s.width / s.mPointWidth + 2 ∧
    (s.mPointWidth ∣ s.width →
      ((appendPoints s points).mData.length : Int) ≤ s.width / s.mPointWidth + 1) := by
  have hfit := appendPoints_fits s points hW hP hOv (fits_of_empty s hE hW hP)
  unfold Fits at hfit
  rw [appendPoints_width, appendPoints_pointWidth] at hfit
  have hpos : 0 < s.mPointWidth := by linarith
  generalize ((appendPoints s points).mData.length : Int) = n at hfit ⊢
  refine ⟨hfit, ?_, ?_, ?_⟩
  · have h1 : n - 1 ≤ (s.width + s.mPointWidth - 1) / s.mPointWidth := by
      rw [Int.le_ediv_iff_mul_le hpos]
      have : (n - 1) * s.mPointWidth = s.mPointWidth * (n - 1) := mul_comm _ _
      linarith
    linarith
  · have h1 : n - 2 ≤ s.width / s.mPointWidth := by
      rw [Int.le_ediv_iff_mul_le hpos]
      have : (n - 2) * s.mPointWidth = s.mPointWidth * (n - 1) - s.mPointWidth := by ring
      linarith
    linarith
  · rintro ⟨k, hk⟩
    rw [hk, Int.mul_ediv_cancel_left k (ne_of_gt hpos)]
    rw [hk] at hfit
    have h2 : s.mPointWidth * (n - 1) < s.mPointWidth * (k + 1) := by
      have : s.mPointWidth * (k + 1) = s.mPointWidth * k + s.mPointWidth := by ring
      linarith
    have h3 : n - 1 < k + 1 := lt_of_mul_lt_mul_left h2 (le_of_lt hpos)
    linarith

/-- Witness of the amended C1: width 1, point width 2, five appended points. -/
theorem appendPoints_length_le_ceil_capacity_witness :
    (setPointWidth (demo 1 10) 2).mPointWidth *
        (((appendPoints (setPointWidth (demo 1 10) 2) [0, 0, 1, 2, 3]).mData.length : Int) - 1)
        < (setPointWidth (demo 1 10) 2).width + (setPointWidth (demo 1 10) 2).mPointWidth :=
  (appendPoints_length_le_ceil_capacity (setPointWidth (demo 1 10) 2) [0, 0, 1, 2, 3]
    (by decide) (by decide) (by decide) (by decide)).1

/-- C2 as stated fails: with widget width 10 and point width 2147483647 the
`int` sum `width() + mPointWidth` overflows and wraps to a negative value, so
on an empty buffer appendPoint(1) dequeues the sample it has just enqueued
and leaves the buffer empty. -/
theorem appendPoint_overflow_leaves_empty_buffer :
    1 ≤ (setPointWidth (demo 10 10) 2147483647).mPointWidth ∧
    0 ≤ (setPointWidth (demo 10 10) 2147483647).width ∧
    (setPointWidth (demo 10 10) 2147483647).mData = [] ∧
    (appendPoint (setPointWidth (demo 10 10) 2147483647) 1).mData = [] ∧
    (appendPoint (setPointWidth (demo 10 10) 2147483647) 1).mData.getLast? ≠ some 1 := by
  decide

/-- C2 (amended): with point width P >= 1 and widget width W >= 0 such that
W + P <= 2147483647 (the `int` sum `width() + mPointWidth` does not
overflow), appendPoint(p) appends at the tail and evicts only from the head:
the new buffer is the old buffer followed by p, or that sequence without its
first element; it is non-empty, its last element is p, and it is a suffix of
the old buffer followed by p, so the surviving samples keep their relative
order. -/
theorem appendPoint_appends_tail_evicts_head (s : Graph Brush Pen Color Font) (p : ℚ)
    (hP : 1 ≤ s.mPointWidth) (hW : 0 ≤ s.width)
    (hOv : s.width + s.mPointWidth ≤ 2147483647) :
    ((appendPoint s p).mData = s.mData ++ [p] ∨
      (appendPoint s p).mData = (s.mData ++ [p]).tail) ∧
    (appendPoint s p).mData ≠ [] ∧
    (appendPoint s p).mData.getLast? = some p ∧
    (appendPoint s p).mData <:+ s.mData ++ [p] := by
  rw [appendPoint_data]
  split
  · rename_i hge
    cases hd : s.mData with
    | nil =>
      rw [hd, wrapInt32_eq_self (s.width + s.mPointWidth) (by linarith) (by linarith)] at hge
      simp only [List.nil_append, List.length_singleton, Nat.cast_one, sub_self] at hge
      rw [wrapInt32_eq_self 0 (by decide) (by decide), mul_zero,
        wrapInt32_eq_self 0 (by decide) (by decide)] at hge
      exfalso; linarith
    | cons x xs =>
      refine ⟨Or.inr rfl, ?_, ?_, ?_⟩
      · simp
      · simp
      · exact List.tail_suffix _
  · refine ⟨Or.inl rfl, ?_, ?_, List.suffix_refl _⟩
    · simp
    · simp

/-- Witness of the amended C2: a full buffer at width 0 and point width 1. -/
theorem appendPoint_appends_tail_evicts_head_witness :
    (appendPoint (appendPoint (demo 0 10) 1) 2).mData.getLast? = some 2 :=
  (appendPoint_appends_tail_evicts_head (appendPoint (demo 0 10) 1) 2
    (by decide) (by decide) (by decide)).2.2.1

/-- C3: clear() leaves a buffer of length zero and changes no configuration
field: units, range, point width, reference points, grid pitch, background
brush, grid pen, data-line pen, axis and label colors and fonts (the widget
geometry is untouched as well). -/
theorem clear_empties_buffer_keeps_configuration (s : Graph Brush Pen Color Font) :
    (clear s).mData.length = 0 ∧
    units (clear s) = units s ∧
    range (clear s) = range s ∧
    pointWidth (clear s) = pointWidth s ∧
    referencePoints (clear s) = referencePoints s ∧
    gridPitch (clear s) = gridPitch s ∧
    backgroundBrush (clear s) = backgroundBrush s ∧
    gridPen (clear s) = gridPen s ∧
    dataLinePen (clear s) = dataLinePen s ∧
    axisColor (clear s) = axisColor s ∧
    labelColor (clear s) = labelColor s ∧
    axisFont (clear s) = axisFont s ∧
    labelFont (clear s) = labelFont s ∧
    (clear s).width = s.width ∧ (clear s).height = s.height :=
  ⟨rfl, rfl, rfl, rfl, rfl, rfl, rfl, rfl, rfl, rfl, rfl, rfl, rfl, rfl, rfl⟩

/-! ## The range guard -/

/-- C4 fails on the code: on a freshly constructed widget (range (0, 100)) the
degenerate call setRange(5, 5) is not ignored, range() becomes (5, 5). -/
theorem setRange_degenerate_is_stored :
    range (demo 100 100) = (0, 100) ∧ range (setRange (demo 100 100) 5 5) = (5, 5) := by
  decide

/-- C5: setting an equal value is a no-op. setRange with the current (min, max)
(through either overload), setGridPen and setDataLinePen with the stored pen,
and setBackgroundBrush with the stored brush return the state unchanged in
every field, the count of update() requests included. -/
theorem equal_value_setters_are_noops [DecidableEq Brush] [DecidableEq Pen]
    (s : Graph Brush Pen Color Font) :
    setRange s s.mMin s.mMax = s ∧
    setRangePair s (range s) = s ∧
    setGridPen s (gridPen s) = s ∧
    setDataLinePen s (dataLinePen s) = s ∧
    setBackgroundBrush s (backgroundBrush s) = s ∧
    (setRange s s.mMin s.mMax).updateCalls = s.updateCalls ∧
    (setGridPen s (gridPen s)).updateCalls = s.updateCalls ∧
    (setDataLinePen s (dataLinePen s)).updateCalls = s.updateCalls ∧
    (setBackgroundBrush s (backgroundBrush s)).updateCalls = s.updateCalls := by
  have h1 : setRange s s.mMin s.mMax = s := by simp [setRange]
  have h2 : setGridPen s (gridPen s) = s := by simp [setGridPen, gridPen]
  have h3 : setDataLinePen s (dataLinePen s) = s := by simp [setDataLinePen, dataLinePen]
  have h4 : setBackgroundBrush s (backgroundBrush s) = s := by
    simp [setBackgroundBrush, backgroundBrush]
  refine ⟨h1, h1, h2, h3, h4, ?_, ?_, ?_, ?_⟩
  · rw [h1]
  · rw [h2]
  · rw [h3]
  · rw [h4]

/-- C10: the guard of setRange tests the stored range, not the arguments.
(a) When the stored range has max > min, range() after setRange(a, b) is
(a, b) for every pair, a >= b included. (b) When the stored range has
max <= min, setRange(a, b) through either overload returns the state
unchanged, and after any sequence of public mutator calls range() is still
the stored range. -/
theorem setRange_guard_tests_stored_range [DecidableEq Brush] [DecidableEq Pen]
    [DecidableEq Color] [DecidableEq Font] (s : Graph Brush Pen Color Font) (a b : ℚ) :
    (s.mMax > s.mMin →
      range (setRange s a b) = (a, b) ∧ range (setRangePair s (a, b)) = (a, b)) ∧
    (s.mMax ≤ s.mMin →
      setRange s a b = s ∧ setRangePair s (a, b) = s ∧
      ∀ calls : List (Call Brush Pen Color Font), range (runCalls s calls) = range s) := by
  constructor
  · intro h
    have h1 : range (setRange s a b) = (a, b) := by
      unfold setRange
      split
      · rw [updateIfData_range]; rfl
      · rename_i hn
        have hab : a = s.mMin ∧ b = s.mMax := by
          by_contra hc
          apply hn
          refine ⟨?_, h⟩
          by_contra hd
          push_neg at hd
          exact hc hd
        simp [range, hab.1, hab.2]
    exact ⟨h1, h1⟩
  · intro h
    have hn : ¬ (s.mMax > s.mMin) := not_lt.mpr h
    have h1 : setRange s a b = s := by simp [setRange, hn]
    exact ⟨h1, h1, fun calls => runCalls_range_of_degenerate s calls h⟩

/-- Witness of C10: (a) on the constructed range (0, 100) the call
setRange(7, 3) is stored; (b) after it the range is stuck at (7, 3). -/
theorem setRange_guard_tests_stored_range_witness :
    range (setRange (demo 100 100) 7 3) = (7, 3) ∧
    setRange (setRange (demo 100 100) 7 3) 0 100 = setRange (demo 100 100) 7 3 :=
  ⟨((setRange_guard_tests_stored_range (demo 100 100) 7 3).1 (by decide)).1,
   ((setRange_guard_tests_stored_range (setRange (demo 100 100) 7 3) 0 100).2 (by decide)).1⟩

/-! ## Refinement of the specified append -/

/-- C8 as stated fails. At width 0 and point width 1 with buffer [1], the
rendered width after enqueueing 2 equals the bound: appendPoint evicts,
the specified loop ("exceeds") does not. With an over-long buffer (point
width raised to 10 on [1, 2, 3] at width 5) appendPoint evicts once where a
loop keeps evicting. -/
theorem appendPoint_differs_from_spec_loop :
    (appendPoint (appendPoint (demo 0 10) 1) 2).mData ≠
      specAppendPoint (appendPoint (demo 0 10) 1).mPointWidth
        (appendPoint (demo 0 10) 1).width (appendPoint (demo 0 10) 1).mData 2 ∧
    (appendPoint (setPointWidth (appendPoints (demo 5 10) [1, 2, 3]) 10) 4).mData ≠
      specAppendPointReaches (setPointWidth (appendPoints (demo 5 10) [1, 2, 3]) 10).mPointWidth
        (setPointWidth (appendPoints (demo 5 10) [1, 2, 3]) 10).width
        (setPointWidth (appendPoints (demo 5 10) [1, 2, 3]) 10).mData 4 := by
  decide

/-- C8 (amended): for every state with widget width W >= 0 and point width
P >= 1 such that W + 2 * P <= 2147483647 (no `int` overflow in appendPoint)
whose buffer satisfies `P * (size - 1) < W + P`, and every value p, the
buffer left by appendPoint(p) equals the buffer produced by: enqueue p, then
dequeue from the front while `P * (size - 1)` is at least the widget width
plus one point width. -/
theorem appendPoint_refines_evict_while_reaches (s : Graph Brush Pen Color Font) (p : ℚ)
    (hW : 0 ≤ s.width) (hP : 1 ≤ s.mPointWidth)
    (hOv : s.width + 2 * s.mPointWidth ≤ 2147483647)
    (hfit : s.mPointWidth * ((s.mData.length : Int) - 1) < s.width + s.mPointWidth) :
    (appendPoint s p).mData = specAppendPointReaches s.mPointWidth s.width s.mData p := by
  rw [appendPoint_data_exact s p hW hP hOv hfit]
  unfold specAppendPointReaches
  obtain ⟨x, xs, hx⟩ : ∃ x xs, s.mData ++ [p] = x :: xs := by
    cases hd : s.mData with
    | nil => exact ⟨p, [], rfl⟩
    | cons y ys => exact ⟨y, ys ++ [p], rfl⟩
  have hlen : (xs.length : Int) = (s.mData.length : Int) := by
    have := congrArg List.length hx
    simp only [List.length_append, List.length_singleton, List.length_cons,
      List.length_nil] at this
    omega
  rw [hx]
  unfold specEvictWhileReaches
  by_cases hc : s.mPointWidth * (((x :: xs).length : Int) - 1) ≥ s.width + s.mPointWidth
  · rw [if_pos hc, if_pos hc, List.tail_cons]
    exact (specEvictWhileReaches_of_fits _ _ xs (by rw [hlen]; exact hfit)).symm
  · rw [if_neg hc, if_neg hc]

/-- Witness of the amended C8: the full buffer [1] at width 0, point width 1. -/
theorem appendPoint_refines_evict_while_reaches_witness :
    (appendPoint (appendPoint (demo 0 10) 1) 2).mData =
      specAppendPointReaches (appendPoint (demo 0 10) 1).mPointWidth
        (appendPoint (demo 0 10) 1).width (appendPoint (demo 0 10) 1).mData 2 :=
  appendPoint_refines_evict_while_reaches (appendPoint (demo 0 10) 1) 2
    (by decide) (by decide) (by decide) (by decide)

/-! ## Paint geometry -/

/-- C6: with a stored range max > min and a widget height H >= 0, the
value-to-pixel map of paintEvent is `y(v) = H - (H / (max - min)) * (v - min)`
over exact rationals; it is affine in v (increments of y are a fixed multiple
of increments of v, and y commutes with affine combinations), sends min to
the bottom edge H and max to the top edge 0, and is antitone: v1 <= v2 gives
y(v1) >= y(v2). -/
theorem valueToY_linear_monotone (s : Graph Brush Pen Color Font)
    (hr : s.mMax > s.mMin) (hH : 0 ≤ s.height) :
    (∀ v, valueToY s v =
      (s.height : ℚ) - ((s.height : ℚ) / (s.mMax - s.mMin)) * (v - s.mMin)) ∧
    (∀ v w, valueToY s v - valueToY s w = -((s.height : ℚ) / (s.mMax - s.mMin)) * (v - w)) ∧
    (∀ t v w, valueToY s (t * v + (1 - t) * w) = t * valueToY s v + (1 - t) * valueToY s w) ∧
    valueToY s s.mMin = (s.height : ℚ) ∧
    valueToY s s.mMax = 0 ∧
    (∀ v1 v2, v1 ≤ v2 → valueToY s v1 ≥ valueToY s v2) := by
  have hsc : scale s = (s.height : ℚ) / (s.mMax - s.mMin) := by
    unfold scale; rw [if_pos hr]
  have hd : s.mMax - s.mMin ≠ 0 := ne_of_gt (sub_pos.mpr hr)
  have hnn : (0 : ℚ) ≤ (s.height : ℚ) / (s.mMax - s.mMin) :=
    div_nonneg (by exact_mod_cast hH) (le_of_lt (sub_pos.mpr hr))
  refine ⟨?_, ?_, ?_, ?_, ?_, ?_⟩
  · intro v; unfold valueToY; rw [hsc]
  · intro v w; unfold valueToY; rw [hsc]; ring
  · intro t v w; unfold valueToY; rw [hsc]; ring
  · unfold valueToY; simp
  · unfold valueToY; rw [hsc]; field_simp
  · intro v1 v2 h
    unfold valueToY; rw [hsc]
    have : (s.height : ℚ) / (s.mMax - s.mMin) * (v1 - s.mMin)
        ≤ (s.height : ℚ) / (s.mMax - s.mMin) * (v2 - s.mMin) :=
      mul_le_mul_of_nonneg_left (by linarith) hnn
    linarith

/-- Witness of C6: the constructed range (0, 100) at height 200. -/
theorem valueToY_linear_monotone_witness :
    valueToY (demo 100 200) (demo 100 200).mMax = 0 :=
  (valueToY_linear_monotone (demo 100 200) (by decide) (by decide)).2.2.2.2.1

/-- C7 as stated fails: with five samples, width 10 and point width
2147483647 the `int` expressions `dataWidth` and `x` overflow. The four
segments run in x from -4294967282 to -2147483635, from -2147483635 to 12,
from -4294967284 to -2147483637 and from -2147483637 to 10: sample 2 is not
at `W - P * 2`, x is not increasing, and the third segment does not start
where the second ended. -/
theorem dataLines_overflow_breaks_positions :
    2 ≤ wideDemo.mData.length ∧ 1 ≤ wideDemo.mPointWidth ∧
    (dataLines wideDemo).map (fun seg => (seg.1.1, seg.2.1)) =
      [(-4294967282, -2147483635), (-2147483635, 12), (-4294967284, -2147483637),
        (-2147483637, 10)] ∧
    ¬ (∀ (k : Nat) (a b : ℚ), wideDemo.mData[k]? = some a → wideDemo.mData[k + 1]? = some b →
      (dataLines wideDemo)[k]? = some
        (((wideDemo.width : ℚ)
            - (wideDemo.mPointWidth : ℚ) * ((wideDemo.mData.length : ℚ) - 1 - (k : ℚ)),
            valueToY wideDemo a),
         ((wideDemo.width : ℚ)
            - (wideDemo.mPointWidth : ℚ) * ((wideDemo.mData.length : ℚ) - 1 - ((k : ℚ) + 1)),
            valueToY wideDemo b))) := by
  have hd : wideDemo.mData = [1, 2, 3, 4, 5] := by decide
  have hw : wideDemo.width = 10 := by decide
  have hp : wideDemo.mPointWidth = 2147483647 := by decide
  have hxs : (dataLines wideDemo).map (fun seg => seg.2.1)
      = [-2147483635, 12, -2147483637, 10] := by decide
  refine ⟨by decide, by decide, ?_, ?_⟩
  · unfold dataLines
    rw [hd, hw, hp]
    norm_num [wrapInt32, List.range']
  · intro h
    have h1 := h 1 2 3 (by rw [hd]; rfl) (by rw [hd]; rfl)
    have h2 : ((dataLines wideDemo).map (fun seg => seg.2.1))[1]? = some (12 : ℚ) := by
      rw [hxs]; rfl
    rw [List.getElem?_map, h1, hd, hw, hp] at h2
    simp only [Option.map_some', Option.some.injEq] at h2
    norm_num at h2

/-- C7 (amended): samples are drawn oldest-to-newest, left-to-right, newest
at the right edge. For a buffer of n >= 2 samples, widget width
0 <= W <= 2147483647 and point width P >= 1 with P * (n - 1) <= 2147483647
(no `int` overflow in dataWidth and x), paintEvent draws n - 1 segments;
segment k runs from sample k at `x = W - P * (n - 1 - k)` to sample k + 1 at
`x = W - P * (n - 1 - (k + 1))`, each at its pixel row; the last segment ends
at x = W on the newest sample; x is strictly increasing in k; and every
segment starts at the exact point where the previous one ended. -/
theorem dataLines_positions (s : Graph Brush Pen Color Font)
    (hn : 2 ≤ s.mData.length) (hP : 1 ≤ s.mPointWidth)
    (hW0 : 0 ≤ s.width) (hW : s.width ≤ 2147483647)
    (hOv : s.mPointWidth * ((s.mData.length : Int) - 1) ≤ 2147483647) :
    (dataLines s).length = s.mData.length - 1 ∧
    (∀ (k : Nat) (a b : ℚ), s.mData[k]? = some a → s.mData[k + 1]? = some b →
      (dataLines s)[k]? = some
        (((s.width : ℚ) - (s.mPointWidth : ℚ) * ((s.mData.length : ℚ) - 1 - (k : ℚ)),
            valueToY s a),
         ((s.width : ℚ) - (s.mPointWidth : ℚ) * ((s.mData.length : ℚ) - 1 - ((k : ℚ) + 1)),
            valueToY s b))) ∧
    (∀ b, s.mData.getLast? = some b →
      (dataLines s).getLast?.map (fun seg => seg.2) = some ((s.width : ℚ), valueToY s b)) ∧
    (∀ j k : Nat, j < k →
      (s.width : ℚ) - (s.mPointWidth : ℚ) * ((s.mData.length : ℚ) - 1 - (j : ℚ)) <
      (s.width : ℚ) - (s.mPointWidth : ℚ) * ((s.mData.length : ℚ) - 1 - (k : ℚ))) ∧
    (∀ (k : Nat) (seg next : Segment), (dataLines s)[k]? = some seg →
      (dataLines s)[k + 1]? = some next → next.1 = seg.2) := by
  refine ⟨dataLines_length s, ?_, ?_, ?_, ?_⟩
  · intro k a b ha hb
    have hk : k + 1 < s.mData.length := lt_length_of_getElem? _ _ _ hb
    rw [dataLines_getElem? s k hk hP hW0 hW hOv, getD_of_getElem? _ _ _ ha,
      getD_of_getElem? _ _ _ hb]
  · intro b hb
    have hk : (s.mData.length - 2) + 1 < s.mData.length := by omega
    have hidx : (dataLines s).length - 1 = s.mData.length - 2 := by
      rw [dataLines_length]; omega
    have hb2 : s.mData[s.mData.length - 2 + 1]? = some b := by
      rw [List.getLast?_eq_getElem?] at hb
      have : s.mData.length - 2 + 1 = s.mData.length - 1 := by omega
      rw [this]; exact hb
    rw [List.getLast?_eq_getElem?, hidx, dataLines_getElem? s _ hk hP hW0 hW hOv,
      getD_of_getElem? _ _ _ hb2]
    simp only [Option.map_some']
    congr 1
    refine Prod.ext ?_ rfl
    have hc : ((s.mData.length - 2 : Nat) : ℚ) = (s.mData.length : ℚ) - 2 := by
      rw [Nat.cast_sub hn]; norm_num
    show (s.width : ℚ) - (s.mPointWidth : ℚ) *
      ((s.mData.length : ℚ) - 1 - (((s.mData.length - 2 : Nat) : ℚ) + 1)) = (s.width : ℚ)
    rw [hc]; ring
  · intro j k hjk
    have hP2 : (0 : ℚ) < (s.mPointWidth : ℚ) := by exact_mod_cast (by linarith : 0 < s.mPointWidth)
    have hjk2 : (j : ℚ) < (k : ℚ) := by exact_mod_cast hjk
    nlinarith
  · intro k seg next hseg hnext
    have hk1 : k + 1 < (dataLines s).length := by
      by_contra hc
      rw [List.getElem?_eq_none (not_lt.mp hc)] at hnext
      exact Option.noConfusion hnext
    rw [dataLines_length] at hk1
    rw [dataLines_getElem? s k (by omega) hP hW0 hW hOv] at hseg
    rw [dataLines_getElem? s (k + 1) (by omega) hP hW0 hW hOv] at hnext
    cases hseg
    cases hnext
    refine Prod.ext ?_ rfl
    show (s.width : ℚ) - (s.mPointWidth : ℚ) * ((s.mData.length : ℚ) - 1 - ((k + 1 : Nat) : ℚ))
      = (s.width : ℚ) - (s.mPointWidth : ℚ) * ((s.mData.length : ℚ) - 1 - ((k : ℚ) + 1))
    push_cast; ring

/-- Witness of the amended C7: three samples at width 10 and point width 2. -/
theorem dataLines_positions_witness :
    (dataLines (appendPoints (setPointWidth (demo 10 100) 2) [10, 20, 30])).length =
      (appendPoints (setPointWidth (demo 10 100) 2) [10, 20, 30]).mData.length - 1 :=
  (dataLines_positions (appendPoints (setPointWidth (demo 10 100) 2) [10, 20, 30])
    (by decide) (by decide) (by decide) (by decide) (by decide)).1

/-- C9: the horizontal grid passes through the first reference point. When
the pitch in pixels is positive, the reference list is non-empty and the
pixel row gridOffset = trunc(H - scale * (first reference point - min)) lies
in 0 <= gridOffset < H, the y positions at which paintEvent draws horizontal
grid lines (from `-pitch + gridOffset % pitch` in steps of the pitch while
y < H) contain gridOffset, and the line from (0, gridOffset) to
(W, gridOffset) is among the drawn grid lines. -/
theorem horizontal_grid_through_first_reference (s : Graph Brush Pen Color Font)
    (hp : 0 < pitchInPixels s) (hr : s.mReferencePoints ≠ [])
    (h0 : 0 ≤ gridOffset s) (hH : gridOffset s < s.height) :
    (∃ first, s.mReferencePoints.head? = some first ∧
      gridOffset s = truncToInt ((s.height : ℚ) - scale s * (first - s.mMin))) ∧
    gridOffset s ∈ horizontalGridYs s ∧
    ((0, (gridOffset s : ℚ)), ((s.width : ℚ), (gridOffset s : ℚ))) ∈ gridLines s := by
  have hmem : gridOffset s ∈ horizontalGridYs s := by
    unfold horizontalGridYs
    rw [if_pos hp]
    generalize pitchInPixels s = p at hp ⊢
    generalize gridOffset s = g at h0 hH ⊢
    simp only []
    rw [Int.tmod_eq_emod h0 (le_of_lt hp)]
    have hq : 0 ≤ g / p := Int.ediv_nonneg h0 (le_of_lt hp)
    have hdecomp : g % p + p * (g / p) = g := Int.emod_add_ediv g p
    have hm0 : 0 ≤ g % p := Int.emod_nonneg g (ne_of_gt hp)
    have hkcast : (((g / p + 1).toNat : Nat) : Int) = g / p + 1 := Int.toNat_of_nonneg (by linarith)
    have hg : g = (-p + g % p) + ((g / p + 1).toNat : Int) * p := by
      rw [hkcast]; linarith [mul_comm p (g / p), add_mul (g / p) 1 p]
    have hkp : (((g / p + 1).toNat : Nat) : Int) ≤ ((g / p + 1).toNat : Int) * p := by
      have : (0 : Int) ≤ ((g / p + 1).toNat : Int) := Int.ofNat_nonneg _
      nlinarith
    have := forLoop_mem s.height p (le_of_lt hp) (g / p + 1).toNat
      (s.height - (-p + g % p)).toNat (-p + g % p) (by omega) (by rw [← hg]; exact hH)
    rw [← hg] at this
    exact this
  refine ⟨?_, hmem, ?_⟩
  · unfold gridOffset valueToY
    cases hrp : s.mReferencePoints with
    | nil => exact absurd hrp hr
    | cons r rs => exact ⟨r, rfl, rfl⟩
  · unfold gridLines
    refine List.mem_append_right _ (List.mem_map.mpr ⟨gridOffset s, hmem, rfl⟩)

/-- Witness of C9: range (0, 100) at height 200, grid pitch 10, reference 15:
the pitch is 20 pixels and the reference row is 170. -/
theorem horizontal_grid_through_first_reference_witness :
    gridOffset (setReferencePoints (demo 100 200) [15]) ∈
      horizontalGridYs (setReferencePoints (demo 100 200) [15]) :=
  (horizontal_grid_through_first_reference (setReferencePoints (demo 100 200) [15])
    (by norm_num [pitchInPixels, scale, setReferencePoints, demo, construct, update,
      truncToInt])
    (by decide)
    (by norm_num [gridOffset, valueToY, scale, setReferencePoints, demo, construct, update,
      truncToInt])
    (by norm_num [gridOffset, valueToY, scale, setReferencePoints, demo, construct, update,
      truncToInt])).2.1

end QSimpleTickerGraph
